import Mathlib

/-!
Shallow embedding of `src/rcpsp.py`.

The script reads an RCPSP instance file, extracts durations, per-resource
demands and successor lists from the task lines, builds a CP model
(precedence constraints, cumulative resource constraints, a makespan
objective and an optional fixed makespan bound) and solves it with finite
fail/time limits.  The file is modelled as a list of token lines, each
token already converted to an integer; Python indexing and slicing are
embedded faithfully, with `Option` marking the places where the script can
raise `IndexError`.
-/

namespace RCPSP

/-- Python indexing `l[i]`: a negative index counts from the end of the
list, and an out-of-range index raises `IndexError` (embedded as `none`). -/
def pyGet {α : Type} (l : List α) (i : Int) : Option α :=
  if i < 0 then
    if (0 : Int) ≤ i + l.length then l.get? (i + l.length).toNat else none
  else l.get? i.toNat

/-- Clamp a slice endpoint into `[0, len]` the way a Python slice does:
a negative endpoint counts from the end (clamped below by `0`), a
non-negative one is clamped above by `len`. -/
def pyBound (len : Nat) (i : Int) : Nat :=
  if i < 0 then (i + len).toNat else min i.toNat len

/-- Python slice `l[lo:hi]`. -/
def pySlice {α : Type} (l : List α) (lo hi : Int) : List α :=
  (l.take (pyBound l.length hi)).drop (pyBound l.length lo)

/-- Python slice `l[lo:]`. -/
def pyDrop {α : Type} (l : List α) (lo : Int) : List α :=
  l.drop (pyBound l.length lo)

/-- The token list of the `i`-th line of the file; `readline` at end of
file returns the empty string, whose `split()` is the empty list. -/
def lineAt (ls : List (List Int)) (i : Nat) : List Int :=
  (ls.get? i).getD []

/-- A Python list comprehension whose body may raise: the whole
comprehension fails as soon as one element does. -/
def mapO {α β : Type} (f : α → Option β) : List α → Option (List β)
  | [] => some []
  | a :: l => do
      let b ← f a
      let bs ← mapO f l
      pure (b :: bs)

/-- The data read from the instance file (lines 41-52 of the script). -/
structure ParsedInstance where
  NB_TASKS : Int
  NB_RESOURCES : Int
  OPTIMAL_BOUND : Option Int
  CAPACITIES : List Int
  TASKS : List (List Int)
deriving DecidableEq

/-- Lines 41-52: `NB_TASKS` and `NB_RESOURCES` are the first two integers
of line 1, `OPTIMAL_BOUND` the optional third, `CAPACITIES` the integers
of line 2 and `TASKS` the next `NB_TASKS` token lines. -/
def readInstance (fileLines : List (List Int)) : Option ParsedInstance := do
  let firstLine := lineAt fileLines 0
  let nbTasks ← pyGet firstLine 0
  let nbResources ← pyGet firstLine 1
  let optimalBound := if 2 < firstLine.length then pyGet firstLine 2 else none
  let capacities := lineAt fileLines 1
  let tasks := (List.range nbTasks.toNat).map (fun i => lineAt fileLines (2 + i))
  pure ⟨nbTasks, nbResources, optimalBound, capacities, tasks⟩

/-- Line 59: `DURATIONS = [TASKS[t][0] for t in range(NB_TASKS)]`. -/
def DURATIONS (tasks : List (List Int)) : Option (List Int) :=
  mapO (fun line => pyGet line 0) tasks

/-- Line 62: `DEMANDS = [TASKS[t][1:NB_RESOURCES + 1] for t in range(NB_TASKS)]`. -/
def DEMANDS (nbResources : Int) (tasks : List (List Int)) : List (List Int) :=
  tasks.map (fun line => pySlice line 1 (nbResources + 1))

/-- Line 65: `SUCCESSORS = [TASKS[t][NB_RESOURCES + 2:] for t in range(NB_TASKS)]`. -/
def SUCCESSORS (nbResources : Int) (tasks : List (List Int)) : List (List Int) :=
  tasks.map (fun line => pyDrop line (nbResources + 2))

/-- Lines 41-65 as one pipeline: read the file, then extract the three
per-task tables.  `none` marks an uncaught `IndexError`. -/
structure PreparedData where
  durations : List Int
  demands : List (List Int)
  successors : List (List Int)
deriving DecidableEq

/-- Reading plus extraction (lines 41-65). -/
def prepareData (fileLines : List (List Int)) :
    Option (ParsedInstance × PreparedData) := do
  let p ← readInstance fileLines
  let durs ← DURATIONS p.TASKS
  pure (p, ⟨durs, DEMANDS p.NB_RESOURCES p.TASKS, SUCCESSORS p.NB_RESOURCES p.TASKS⟩)

/-- The constraints and objectives the script adds to the `CpoModel`,
with interval variables identified by their 0-based task index. -/
inductive CpoConstraint : Type where
  | endBeforeStart (t j : Nat)
  | cumulLe (pulses : List (Nat × Int)) (cap : Int)
  | minimizeMax (ts : List Nat)
  | eqBound (ts : List Nat) (b : Int)
deriving DecidableEq

/-- The model the script builds: the task count, the interval-variable
sizes (`DURATIONS`) and the added constraints in program order. -/
structure CpoModel where
  nbTasks : Nat
  durations : List Int
  constraints : List CpoConstraint
deriving DecidableEq

/-- Resolution of `tasks[i]`, where `tasks` is the list of the `n`
interval variables: maps a Python index to the 0-based variable index. -/
def resolveVar (n : Nat) (i : Int) : Option Nat :=
  pyGet (List.range n) i

/-- Line 78: `end_before_start(tasks[t], tasks[s - 1]) for t in
range(NB_TASKS) for s in SUCCESSORS[t]`. -/
def buildPrecedences (n : Nat) (succs : List (List Int)) :
    Option (List CpoConstraint) :=
  mapO
    (fun ts => (resolveVar n (ts.2 - 1)).map
      (fun j => CpoConstraint.endBeforeStart ts.1 j))
    ((List.range n).flatMap (fun t => (lineAt succs t).map (fun s => (t, s))))

/-- The values `DEMANDS[t][r]` paired with `t`, for `t in range(NB_TASKS)`;
fails where the Python indexing would raise. -/
def resourcePairs (n : Nat) (dems : List (List Int)) (r : Nat) :
    Option (List (Nat × Int)) :=
  mapO (fun t => (pyGet (lineAt dems t) (r : Int)).map (fun d => (t, d)))
    (List.range n)

/-- Lines 81-82: for each resource `r`, the sum of the pulses of the tasks
with `DEMANDS[t][r] > 0` is constrained by `CAPACITIES[r]`. -/
def buildCumulatives (n nbRes : Nat) (dems : List (List Int))
    (caps : List Int) : Option (List CpoConstraint) :=
  mapO
    (fun r => do
      let pairs ← resourcePairs n dems r
      let cap ← pyGet caps (r : Int)
      pure (CpoConstraint.cumulLe
        (pairs.filter (fun td => decide (0 < td.2))) cap))
    (List.range nbRes)

/-- Lines 85-92: `minimize(makespan)` is added unconditionally at line 88,
and `makespan == OPTIMAL_BOUND` is added after it when a bound was read
(lines 91-92). -/
def objTail (n : Nat) : Option Int → List CpoConstraint
  | some b => [CpoConstraint.minimizeMax (List.range n),
               CpoConstraint.eqBound (List.range n) b]
  | none => [CpoConstraint.minimizeMax (List.range n)]

/-- Lines 72-92: build the model.  The precedence constraints come first,
then the cumulative constraints, then the objective and the optional
fixed-makespan constraint. -/
def buildModel (p : ParsedInstance) : Option CpoModel := do
  let n := p.NB_TASKS.toNat
  let durs ← DURATIONS p.TASKS
  let dems := DEMANDS p.NB_RESOURCES p.TASKS
  let succs := SUCCESSORS p.NB_RESOURCES p.TASKS
  let precs ← buildPrecedences n succs
  let cums ← buildCumulatives n p.NB_RESOURCES.toNat dems p.CAPACITIES
  pure ⟨n, durs, precs ++ cums ++ objTail n p.OPTIMAL_BOUND⟩

/-- End of task `t`: its interval variable has size `DURATIONS[t]`, so the
end is the start plus the duration. -/
def endTime (durs : List Int) (sched : Nat → Int) (t : Nat) : Int :=
  sched t + ((durs.get? t).getD 0)

/-- Value at time `u` of a sum of pulses: each pulse contributes its
height throughout the half-open execution interval of its task. -/
def pulseSum (durs : List Int) (pulses : List (Nat × Int))
    (sched : Nat → Int) (u : Int) : Int :=
  (pulses.map
    (fun td => if sched td.1 ≤ u ∧ u < endTime durs sched td.1 then td.2 else 0)).sum

/-- Line 85: `makespan = max(end_of(t) for t in tasks)` evaluated on a
schedule (the maximum of the end times of the listed tasks). -/
def evalMaxEnd (durs : List Int) (sched : Nat → Int) : List Nat → Int
  | [] => 0
  | t :: rest =>
      rest.foldl (fun a u => max a (endTime durs sched u)) (endTime durs sched t)

/-- What it means for a schedule of start times to satisfy one added
constraint; the `minimize` directive restricts nothing by itself. -/
def satisfies (durs : List Int) (sched : Nat → Int) : CpoConstraint → Prop
  | CpoConstraint.endBeforeStart t j => endTime durs sched t ≤ sched j
  | CpoConstraint.cumulLe pulses cap => ∀ u : Int, pulseSum durs pulses sched u ≤ cap
  | CpoConstraint.minimizeMax _ => True
  | CpoConstraint.eqBound ts b => evalMaxEnd durs sched ts = b

/-- A schedule admitted by the model: it satisfies every added constraint. -/
def admits (m : CpoModel) (sched : Nat → Int) : Prop :=
  ∀ c ∈ m.constraints, satisfies m.durations sched c

/-- The options a `solve` call passes to the engine; `none` means the
corresponding limit is absent (unbounded). -/
structure SolveOptions where
  FailLimit : Option Nat
  TimeLimit : Option Nat
deriving DecidableEq

/-- Line 104: `res = mdl.solve(FailLimit=1000000, TimeLimit=10)`. -/
def solveCallOptions : SolveOptions :=
  ⟨some 1000000, some 10⟩

/-- A solve call performs unbounded search when neither limit is set. -/
def unboundedSearch (o : SolveOptions) : Prop :=
  o.FailLimit = none ∧ o.TimeLimit = none

/-- A chain of precedence constraints of the model starting at a task:
`chainFrom m t [u1, u2, ...]` holds when the model constrains `t` to end
before `u1` starts, `u1` to end before `u2` starts, and so on. -/
def chainFrom (m : CpoModel) : Nat → List Nat → Prop
  | _, [] => True
  | t, u :: rest =>
      CpoConstraint.endBeforeStart t u ∈ m.constraints ∧ chainFrom m u rest

/-- The final task of a chain. -/
def lastOf : Nat → List Nat → Nat
  | t, [] => t
  | _, u :: rest => lastOf u rest

/-- Total duration spent along a chain: the duration of the start task and
of every task of the chain except the final one. -/
def durAlong (durs : List Int) : Nat → List Nat → Int
  | _, [] => 0
  | t, u :: rest => ((durs.get? t).getD 0) + durAlong durs u rest

/-! ### Basic lemmas about the embedding combinators -/

theorem mapO_mem_of_mem {α β : Type} (f : α → Option β) :
    ∀ {l : List α} {out : List β}, mapO f l = some out →
      ∀ {x : α}, x ∈ l → ∃ y, f x = some y ∧ y ∈ out := by
  intro l
  induction l with
  | nil =>
      intro out h x hx
      cases hx
  | cons a l ih =>
      intro out h x hx
      simp only [mapO, Option.bind_eq_bind', Option.bind_eq_some, Option.pure_def,
        Option.some.injEq] at h
      obtain ⟨b, hb, bs, hbs, rfl⟩ := h
      rcases List.mem_cons.mp hx with rfl | hx
      · exact ⟨b, hb, List.mem_cons_self _ _⟩
      · obtain ⟨y, hy, hmem⟩ := ih hbs hx
        exact ⟨y, hy, List.mem_cons_of_mem _ hmem⟩

theorem mapO_shape {α β : Type} (f : α → Option β) :
    ∀ {l : List α} {out : List β}, mapO f l = some out →
      ∀ {y : β}, y ∈ out → ∃ x ∈ l, f x = some y := by
  intro l
  induction l with
  | nil =>
      intro out h y hy
      simp only [mapO, Option.some.injEq] at h
      subst h
      cases hy
  | cons a l ih =>
      intro out h y hy
      simp only [mapO, Option.bind_eq_bind', Option.bind_eq_some, Option.pure_def,
        Option.some.injEq] at h
      obtain ⟨b, hb, bs, hbs, rfl⟩ := h
      rcases List.mem_cons.mp hy with rfl | hy
      · exact ⟨a, List.mem_cons_self _ _, hb⟩
      · obtain ⟨x, hx, hfx⟩ := ih hbs hy
        exact ⟨x, List.mem_cons_of_mem _ hx, hfx⟩

theorem mapO_isSome {α β : Type} (f : α → Option β) :
    ∀ (l : List α), (∀ x ∈ l, (f x).isSome) → (mapO f l).isSome := by
  intro l
  induction l with
  | nil =>
      intro _
      simp [mapO]
  | cons a l ih =>
      intro h
      have ha := h a (List.mem_cons_self _ _)
      have hl := ih (fun x hx => h x (List.mem_cons_of_mem _ hx))
      obtain ⟨b, hb⟩ := Option.isSome_iff_exists.mp ha
      obtain ⟨bs, hbs⟩ := Option.isSome_iff_exists.mp hl
      simp [mapO, hb, hbs]

theorem mapO_congr {α β : Type} (f g : α → Option β) :
    ∀ (l₁ l₂ : List α), l₁.length = l₂.length →
      (∀ i x₁ x₂, l₁.get? i = some x₁ → l₂.get? i = some x₂ →
        f x₁ = g x₂) →
      mapO f l₁ = mapO g l₂ := by
  intro l₁
  induction l₁ with
  | nil =>
      intro l₂ hlen _
      cases l₂ with
      | nil => rfl
      | cons b l₂ => simp at hlen
  | cons a l₁ ih =>
      intro l₂ hlen hag
      cases l₂ with
      | nil => simp at hlen
      | cons b l₂ =>
          have h0 : f a = g b := hag 0 a b rfl rfl
          have ht : mapO f l₁ = mapO g l₂ := by
            refine ih l₂ (by simpa using hlen) ?_
            intro i x₁ x₂ h₁ h₂
            exact hag (i + 1) x₁ x₂ h₁ h₂
          simp [mapO, h0, ht]

theorem mapO_get? {α β : Type} (f : α → Option β) :
    ∀ {l : List α} {out : List β}, mapO f l = some out →
      ∀ i : Nat, out.get? i = (l.get? i).bind f := by
  intro l
  induction l with
  | nil =>
      intro out h i
      simp only [mapO, Option.some.injEq] at h
      subst h
      simp
  | cons a l ih =>
      intro out h i
      simp only [mapO, Option.bind_eq_bind', Option.bind_eq_some,
        Option.pure_def, Option.some.injEq] at h
      obtain ⟨b, hb, bs, hbs, rfl⟩ := h
      cases i with
      | zero => simpa using hb.symm
      | succ i => simpa using ih hbs i

/-- Unfolding of a successful `buildModel`. -/
theorem buildModel_eq {p : ParsedInstance} {m : CpoModel}
    (h : buildModel p = some m) :
    ∃ durs precs cums,
      DURATIONS p.TASKS = some durs ∧
      buildPrecedences p.NB_TASKS.toNat (SUCCESSORS p.NB_RESOURCES p.TASKS)
        = some precs ∧
      buildCumulatives p.NB_TASKS.toNat p.NB_RESOURCES.toNat
        (DEMANDS p.NB_RESOURCES p.TASKS) p.CAPACITIES = some cums ∧
      m = ⟨p.NB_TASKS.toNat, durs,
            precs ++ cums ++ objTail p.NB_TASKS.toNat p.OPTIMAL_BOUND⟩ := by
  simp only [buildModel, Option.bind_eq_bind', Option.bind_eq_some, Option.pure_def,
    Option.some.injEq] at h
  obtain ⟨durs, hdurs, precs, hprecs, cums, hcums, rfl⟩ := h
  exact ⟨durs, precs, cums, hdurs, hprecs, hcums, rfl⟩

/-- Every constraint produced by `buildPrecedences` is an
`endBeforeStart`. -/
theorem buildPrecedences_shape {n : Nat} {succs : List (List Int)}
    {precs : List CpoConstraint} (h : buildPrecedences n succs = some precs) :
    ∀ c ∈ precs, ∃ t j, c = CpoConstraint.endBeforeStart t j := by
  intro c hc
  obtain ⟨x, _, hfx⟩ := mapO_shape _ h hc
  simp only [Option.map_eq_some'] at hfx
  obtain ⟨j, _, rfl⟩ := hfx
  exact ⟨x.1, j, rfl⟩

/-- Every constraint produced by `buildCumulatives` is a `cumulLe`. -/
theorem buildCumulatives_shape {n nbRes : Nat} {dems : List (List Int)}
    {caps : List Int} {cums : List CpoConstraint}
    (h : buildCumulatives n nbRes dems caps = some cums) :
    ∀ c ∈ cums, ∃ pulses cap, c = CpoConstraint.cumulLe pulses cap := by
  intro c hc
  obtain ⟨r, _, hfr⟩ := mapO_shape _ h hc
  simp only [Option.bind_eq_bind', Option.bind_eq_some, Option.pure_def, Option.some.injEq] at hfr
  obtain ⟨pairs, _, cap, _, rfl⟩ := hfr
  exact ⟨_, cap, rfl⟩

/-! ### Python slice arithmetic -/

theorem take_min_length {α : Type} (l : List α) (k : Nat) :
    l.take (min k l.length) = l.take k := by
  rcases le_or_lt k l.length with h | h
  · rw [min_eq_left h]
  · rw [min_eq_right h.le, List.take_length, List.take_of_length_le h.le]

theorem drop_min_of_le {α : Type} (X : List α) (k len : Nat)
    (h : X.length ≤ len) : X.drop (min k len) = X.drop k := by
  rcases le_or_lt k len with h' | h'
  · rw [min_eq_left h']
  · rw [min_eq_right h'.le, List.drop_of_length_le h,
      List.drop_of_length_le (h.trans h'.le)]

theorem pyBound_of_nonneg {len : Nat} {i : Int} (h : 0 ≤ i) :
    pyBound len i = min i.toNat len := by
  rw [pyBound, if_neg (not_lt.mpr h)]

theorem pyGet_of_nonneg {α : Type} (l : List α) {i : Int} (h : 0 ≤ i) :
    pyGet l i = l.get? i.toNat := by
  rw [pyGet, if_neg (not_lt.mpr h)]

theorem pySlice_eq {α : Type} (l : List α) {lo hi : Int}
    (hlo : 0 ≤ lo) (hhi : 0 ≤ hi) :
    pySlice l lo hi = (l.drop lo.toNat).take (hi.toNat - lo.toNat) := by
  rw [pySlice, pyBound_of_nonneg hlo, pyBound_of_nonneg hhi, take_min_length,
    drop_min_of_le _ _ _ (by simp [List.length_take]), List.drop_take]

theorem pyDrop_eq {α : Type} (l : List α) {lo : Int} (h : 0 ≤ lo) :
    pyDrop l lo = l.drop lo.toNat := by
  rw [pyDrop, pyBound_of_nonneg h,
    drop_min_of_le _ _ _ (le_refl l.length)]

/-! ### Maxima of folded end times -/

theorem foldl_max_init_le (f : Nat → Int) :
    ∀ (l : List Nat) (a : Int), a ≤ l.foldl (fun x y => max x (f y)) a := by
  intro l
  induction l with
  | nil => intro a; exact le_refl a
  | cons b l ih =>
      intro a
      exact le_trans (le_max_left a (f b)) (ih (max a (f b)))

theorem le_foldl_max (f : Nat → Int) :
    ∀ (l : List Nat) (a : Int) (x : Nat), x ∈ l →
      f x ≤ l.foldl (fun x y => max x (f y)) a := by
  intro l
  induction l with
  | nil =>
      intro a x hx
      cases hx
  | cons b l ih =>
      intro a x hx
      rcases List.mem_cons.mp hx with rfl | hx
      · exact le_trans (le_max_right a (f x)) (foldl_max_init_le f l _)
      · exact ih _ x hx

theorem foldl_max_cases (f : Nat → Int) :
    ∀ (l : List Nat) (a : Int),
      l.foldl (fun x y => max x (f y)) a = a ∨
        ∃ x ∈ l, l.foldl (fun x y => max x (f y)) a = f x := by
  intro l
  induction l with
  | nil =>
      intro a
      exact Or.inl rfl
  | cons b l ih =>
      intro a
      rcases ih (max a (f b)) with h | ⟨x, hx, h⟩
      · rcases max_choice a (f b) with hm | hm
        · exact Or.inl (by rw [List.foldl_cons, h, hm])
        · exact Or.inr ⟨b, List.mem_cons_self _ _, by rw [List.foldl_cons, h, hm]⟩
      · exact Or.inr ⟨x, List.mem_cons_of_mem _ hx, by rw [List.foldl_cons, h]⟩

/-! ### Pulse sums -/

theorem pulseSum_nil (durs : List Int) (sched : Nat → Int) (u : Int) :
    pulseSum durs [] sched u = 0 := rfl

theorem pulseSum_cons (durs : List Int) (td : Nat × Int)
    (L : List (Nat × Int)) (sched : Nat → Int) (u : Int) :
    pulseSum durs (td :: L) sched u =
      (if sched td.1 ≤ u ∧ u < endTime durs sched td.1 then td.2 else 0)
        + pulseSum durs L sched u := by
  simp [pulseSum]

/-- Dropping the pulses of non-positive height does not change the value
of the sum, provided no height is negative. -/
theorem pulseSum_filter_pos (durs : List Int) (sched : Nat → Int) (u : Int) :
    ∀ (L : List (Nat × Int)), (∀ td ∈ L, 0 ≤ td.2) →
      pulseSum durs (L.filter (fun td => decide (0 < td.2))) sched u
        = pulseSum durs L sched u := by
  intro L
  induction L with
  | nil =>
      intro _
      rfl
  | cons td L ih =>
      intro h
      have htd := h td (List.mem_cons_self _ _)
      have hL := ih (fun x hx => h x (List.mem_cons_of_mem _ hx))
      by_cases hpos : 0 < td.2
      · rw [List.filter_cons_of_pos (by simpa using hpos), pulseSum_cons,
          pulseSum_cons, hL]
      · have hz : td.2 = 0 := le_antisymm (not_lt.mp hpos) htd
        rw [List.filter_cons_of_neg (by simpa using hpos), pulseSum_cons, hL, hz]
        simp

/-! ### Precedence chains -/

/-- A schedule that satisfies every precedence constraint along a chain
delays the final task by at least the total duration of the chain. -/
theorem chainFrom_le (m : CpoModel) (sched : Nat → Int)
    (h : admits m sched) :
    ∀ (l : List Nat) (t : Nat), chainFrom m t l →
      sched t + durAlong m.durations t l ≤ sched (lastOf t l) := by
  intro l
  induction l with
  | nil =>
      intro t _
      simp [durAlong, lastOf]
  | cons u l ih =>
      intro t hch
      obtain ⟨hmem, hch'⟩ := hch
      have h1 : endTime m.durations sched t ≤ sched u := h _ hmem
      have h2 := ih u hch'
      rw [endTime] at h1
      simp only [durAlong, lastOf]
      linarith

/-! ### Concrete instances

Small instance files used to instantiate the theorems below.  Each file
is given as its token lines; the parsed form and the built model are
checked against the parser and the builder by evaluation. -/

/-- File: 2 tasks, 1 resource of capacity 1; task 1 has duration 1,
demand 0, one successor (task 2); task 2 has duration 2, demand 1, no
successor. -/
def exALines : List (List Int) := [[2, 1], [1], [1, 0, 1, 2], [2, 1, 0]]

def exA : ParsedInstance := ⟨2, 1, none, [1], [[1, 0, 1, 2], [2, 1, 0]]⟩

def exAM : CpoModel :=
  ⟨2, [1, 2],
    [CpoConstraint.endBeforeStart 0 1,
     CpoConstraint.cumulLe [(1, 1)] 1,
     CpoConstraint.minimizeMax [0, 1]]⟩

/-- File: 1 task of duration 3, no resources, optimal bound 7 on line 1. -/
def exBLines : List (List Int) := [[1, 0, 7], [], [3, 0]]

def exB : ParsedInstance := ⟨1, 0, some 7, [], [[3, 0]]⟩

def exBM : CpoModel :=
  ⟨1, [3],
    [CpoConstraint.minimizeMax [0],
     CpoConstraint.eqBound [0] 7]⟩

/-- File: two zero-duration tasks, no resources, each the successor of
the other (activity 1 → activity 2 → activity 1). -/
def cycZLines : List (List Int) := [[2, 0], [], [0, 1, 2], [0, 1, 1]]

def cycZ : ParsedInstance := ⟨2, 0, none, [], [[0, 1, 2], [0, 1, 1]]⟩

def cycZM : CpoModel :=
  ⟨2, [0, 0],
    [CpoConstraint.endBeforeStart 0 1,
     CpoConstraint.endBeforeStart 1 0,
     CpoConstraint.minimizeMax [0, 1]]⟩

/-- File: the same two-task cycle with both durations positive. -/
def cycPLines : List (List Int) := [[2, 0], [], [1, 1, 2], [1, 1, 1]]

def cycP : ParsedInstance := ⟨2, 0, none, [], [[1, 1, 2], [1, 1, 1]]⟩

def cycPM : CpoModel :=
  ⟨2, [1, 1],
    [CpoConstraint.endBeforeStart 0 1,
     CpoConstraint.endBeforeStart 1 0,
     CpoConstraint.minimizeMax [0, 1]]⟩

/-- File: 1 task, 2 resources of capacity 3, and an empty task line. -/
def shortLines : List (List Int) := [[1, 2], [3, 3], []]

theorem readInstance_exA : readInstance exALines = some exA := by decide

theorem buildModel_exA : buildModel exA = some exAM := by decide

theorem readInstance_exB : readInstance exBLines = some exB := by decide

theorem buildModel_exB : buildModel exB = some exBM := by decide

theorem readInstance_cycZ : readInstance cycZLines = some cycZ := by decide

theorem buildModel_cycZ : buildModel cycZ = some cycZM := by decide

theorem readInstance_cycP : readInstance cycPLines = some cycP := by decide

theorem buildModel_cycP : buildModel cycP = some cycPM := by decide

/-! ### Claims -/

/-- C1: for every task index `t` (0-based) and every successor identifier
`s` listed for `t` in the instance file (1-based, in range), the built
model contains the precedence constraint that task `t` ends before task
`s-1` (0-based) starts; hence every schedule admitted by the model has
`start(s-1) ≥ start(t) + duration(t)`. -/
theorem C1_precedence_constraints (p : ParsedInstance) (m : CpoModel)
    (h : buildModel p = some m) (t : Nat) (s : Int)
    (ht : t < p.NB_TASKS.toNat)
    (hs : s ∈ lineAt (SUCCESSORS p.NB_RESOURCES p.TASKS) t)
    (h1 : 1 ≤ s) (h2 : s ≤ (p.NB_TASKS.toNat : Int)) :
    CpoConstraint.endBeforeStart t (s - 1).toNat ∈ m.constraints ∧
      ∀ sched : Nat → Int, admits m sched →
        sched t + ((m.durations.get? t).getD 0) ≤ sched (s - 1).toNat := by
  obtain ⟨durs, precs, cums, hdurs, hprecs, hcums, rfl⟩ := buildModel_eq h
  have hpair : (t, s) ∈
      (List.range p.NB_TASKS.toNat).flatMap
        (fun t => (lineAt (SUCCESSORS p.NB_RESOURCES p.TASKS) t).map
          (fun s => (t, s))) := by
    refine List.mem_flatMap.mpr ⟨t, List.mem_range.mpr ht, ?_⟩
    exact List.mem_map.mpr ⟨s, hs, rfl⟩
  obtain ⟨c, hc, hcmem⟩ := mapO_mem_of_mem _ hprecs hpair
  have hsn : (s - 1).toNat < p.NB_TASKS.toNat := by omega
  have hres : resolveVar p.NB_TASKS.toNat (s - 1) = some (s - 1).toNat := by
    rw [resolveVar, pyGet_of_nonneg _ (by omega), List.get?_eq_getElem?,
      List.getElem?_range hsn]
  rw [hres] at hc
  simp only [Option.map_some', Option.some.injEq] at hc
  subst hc
  have hmem : CpoConstraint.endBeforeStart t (s - 1).toNat ∈
      precs ++ cums ++ objTail p.NB_TASKS.toNat p.OPTIMAL_BOUND :=
    List.mem_append_left _ (List.mem_append_left _ hcmem)
  refine ⟨hmem, ?_⟩
  intro sched hadm
  have hsat := hadm _ hmem
  simpa [satisfies, endTime] using hsat

/-- C1 witness: in the concrete instance `exA`, task 0 lists successor 2,
and the built model indeed constrains task 0 to end before task 1 starts. -/
theorem C1_witness :
    CpoConstraint.endBeforeStart 0 1 ∈ exAM.constraints ∧
      ∀ sched : Nat → Int, admits exAM sched →
        sched 0 + ((exAM.durations.get? 0).getD 0) ≤ sched 1 := by
  have h := C1_precedence_constraints exA exAM (by decide) 0 2 (by decide)
    (by decide) (by decide) (by decide)
  norm_num at h
  exact h

/-- C3: when the first line of the instance file carries a third integer,
the built model contains the constraint `makespan == OPTIMAL_BOUND`, so
every admitted schedule has exactly that makespan; when no third value is
present, no such equality constraint is in the model. -/
theorem C3_fixed_bound (p : ParsedInstance) (m : CpoModel)
    (h : buildModel p = some m) :
    (∀ b, p.OPTIMAL_BOUND = some b →
      CpoConstraint.eqBound (List.range m.nbTasks) b ∈ m.constraints ∧
      ∀ sched : Nat → Int, admits m sched →
        evalMaxEnd m.durations sched (List.range m.nbTasks) = b) ∧
    (p.OPTIMAL_BOUND = none →
      ∀ ts b, CpoConstraint.eqBound ts b ∉ m.constraints) := by
  obtain ⟨durs, precs, cums, hdurs, hprecs, hcums, rfl⟩ := buildModel_eq h
  constructor
  · intro b hb
    have hmem : CpoConstraint.eqBound (List.range p.NB_TASKS.toNat) b ∈
        precs ++ cums ++ objTail p.NB_TASKS.toNat p.OPTIMAL_BOUND := by
      refine List.mem_append_right _ ?_
      rw [hb]
      simp [objTail]
    refine ⟨hmem, ?_⟩
    intro sched hadm
    have hsat := hadm _ hmem
    simpa [satisfies] using hsat
  · intro hb ts b hmem
    rcases List.mem_append.mp hmem with hmem | hmem
    · rcases List.mem_append.mp hmem with hmem | hmem
      · obtain ⟨t', j', hcc⟩ := buildPrecedences_shape hprecs _ hmem
        simp at hcc
      · obtain ⟨pulses, cap, hcc⟩ := buildCumulatives_shape hcums _ hmem
        simp at hcc
    · rw [hb] at hmem
      simp [objTail] at hmem

/-- C3 witness: in the concrete instance `exB` the bound 7 was read and
the built model contains `makespan == 7`. -/
theorem C3_witness :
    (∀ b, exB.OPTIMAL_BOUND = some b →
      CpoConstraint.eqBound (List.range exBM.nbTasks) b ∈ exBM.constraints ∧
      ∀ sched : Nat → Int, admits exBM sched →
        evalMaxEnd exBM.durations sched (List.range exBM.nbTasks) = b) ∧
    (exB.OPTIMAL_BOUND = none →
      ∀ ts b, CpoConstraint.eqBound ts b ∉ exBM.constraints) :=
  C3_fixed_bound exB exBM (by decide)

/-- C6 counterexample: the instance `exB` supplies a target makespan
(bound 7), yet the built model still contains the minimization objective
on the makespan, contrary to the claim. -/
theorem C6_counterexample :
    exB.OPTIMAL_BOUND = some 7 ∧ buildModel exB = some exBM ∧
      CpoConstraint.minimizeMax (List.range exBM.nbTasks) ∈ exBM.constraints := by
  decide

/-- C6 amended: when a target makespan is supplied, the model contains
both the minimization objective on the makespan (added unconditionally at
line 88) and the equality constraint fixing the makespan to the bound. -/
theorem C6_minimize_despite_bound (p : ParsedInstance) (m : CpoModel)
    (h : buildModel p = some m) (b : Int) (hb : p.OPTIMAL_BOUND = some b) :
    CpoConstraint.minimizeMax (List.range m.nbTasks) ∈ m.constraints ∧
      CpoConstraint.eqBound (List.range m.nbTasks) b ∈ m.constraints := by
  obtain ⟨durs, precs, cums, hdurs, hprecs, hcums, rfl⟩ := buildModel_eq h
  constructor <;>
    · refine List.mem_append_right _ ?_
      rw [hb]
      simp [objTail]

/-- C6 witness: the amended statement instantiated at `exB`. -/
theorem C6_witness :
    CpoConstraint.minimizeMax (List.range exBM.nbTasks) ∈ exBM.constraints ∧
      CpoConstraint.eqBound (List.range exBM.nbTasks) 7 ∈ exBM.constraints :=
  C6_minimize_despite_bound exB exBM (by decide) 7 (by decide)

/-- C7 counterexample: the solve invocation at line 104 passes
`FailLimit=1000000, TimeLimit=10`, so it is not an unbounded search. -/
theorem C7_counterexample : ¬ unboundedSearch solveCallOptions := by
  simp [unboundedSearch, solveCallOptions]

/-- C7 amended: the source's solve invocation bounds the search by one
million fails and ten seconds; it does not match an unbounded
`nodeLimit`/`timeLimit` default. -/
theorem C7_bounded_solve :
    solveCallOptions.FailLimit = some 1000000 ∧
    solveCallOptions.TimeLimit = some 10 ∧
    ¬ unboundedSearch solveCallOptions := by
  refine ⟨rfl, rfl, ?_⟩
  simp [unboundedSearch, solveCallOptions]

/-- The folded makespan expression evaluates to the maximum of the end
times of tasks `0 .. n-1`. -/
theorem evalMaxEnd_is_max (durs : List Int) (sched : Nat → Int) (n : Nat)
    (hn : 0 < n) :
    (∀ t, t < n → endTime durs sched t ≤ evalMaxEnd durs sched (List.range n)) ∧
    ∃ t, t < n ∧ evalMaxEnd durs sched (List.range n) = endTime durs sched t := by
  obtain ⟨k, rfl⟩ : ∃ k, n = k + 1 := ⟨n - 1, by omega⟩
  rw [List.range_succ_eq_map]
  constructor
  · intro t ht
    have hmem : t ∈ (0 :: List.map Nat.succ (List.range k)) := by
      rw [← List.range_succ_eq_map]
      exact List.mem_range.mpr ht
    simp only [evalMaxEnd]
    rcases List.mem_cons.mp hmem with rfl | hmem
    · exact foldl_max_init_le _ _ _
    · exact le_foldl_max _ _ _ _ hmem
  · rcases foldl_max_cases (endTime durs sched) (List.map Nat.succ (List.range k))
      (endTime durs sched 0) with hcase | ⟨x, hx, hcase⟩
    · refine ⟨0, Nat.succ_pos k, ?_⟩
      simp only [evalMaxEnd]
      exact hcase
    · have hxr : x ∈ List.range (k + 1) := by
        rw [List.range_succ_eq_map]
        exact List.mem_cons_of_mem _ hx
      refine ⟨x, List.mem_range.mp hxr, ?_⟩
      simp only [evalMaxEnd]
      exact hcase

/-- C2: for every resource `r` the built model contains the cumulative
constraint of `r`, whose capacity is `CAPACITIES[r]` and whose pulses are
the tasks with strictly positive demand on `r`; when no demand is
negative, dropping the zero-demand tasks does not change the summed
demand, so every admitted schedule keeps the total demand of all tasks
active at any time unit within the capacity. -/
theorem C2_cumulative_capacity (p : ParsedInstance) (m : CpoModel)
    (h : buildModel p = some m) (r : Nat)
    (hr : r < p.NB_RESOURCES.toNat)
    (hpos : ∀ t, t < p.NB_TASKS.toNat →
      0 ≤ (pyGet (lineAt (DEMANDS p.NB_RESOURCES p.TASKS) t) (r : Int)).getD 0) :
    ∃ pairs cap,
      resourcePairs p.NB_TASKS.toNat (DEMANDS p.NB_RESOURCES p.TASKS) r
        = some pairs ∧
      pyGet p.CAPACITIES (r : Int) = some cap ∧
      CpoConstraint.cumulLe (pairs.filter (fun td => decide (0 < td.2))) cap
        ∈ m.constraints ∧
      (∀ (sched : Nat → Int) (u : Int),
        pulseSum m.durations (pairs.filter (fun td => decide (0 < td.2))) sched u
          = pulseSum m.durations pairs sched u) ∧
      (∀ sched : Nat → Int, admits m sched →
        ∀ u : Int, pulseSum m.durations pairs sched u ≤ cap) := by
  obtain ⟨durs, precs, cums, hdurs, hprecs, hcums, rfl⟩ := buildModel_eq h
  obtain ⟨c, hc, hcmem⟩ := mapO_mem_of_mem _ hcums (List.mem_range.mpr hr)
  simp only [Option.bind_eq_bind', Option.bind_eq_some, Option.pure_def,
    Option.some.injEq] at hc
  obtain ⟨pairs, hpairs, cap, hcap, hceq⟩ := hc
  subst hceq
  have hnn : ∀ td ∈ pairs, (0 : Int) ≤ td.2 := by
    intro td htd
    obtain ⟨x, hx, hfx⟩ := mapO_shape _ hpairs htd
    simp only [Option.map_eq_some'] at hfx
    obtain ⟨d, hd, rfl⟩ := hfx
    have hx' := hpos x (List.mem_range.mp hx)
    rw [hd] at hx'
    simpa using hx'
  have hmem : CpoConstraint.cumulLe
      (pairs.filter (fun td => decide (0 < td.2))) cap ∈
      precs ++ cums ++ objTail p.NB_TASKS.toNat p.OPTIMAL_BOUND :=
    List.mem_append_left _ (List.mem_append_right _ hcmem)
  refine ⟨pairs, cap, hpairs, hcap, hmem, ?_, ?_⟩
  · intro sched u
    exact pulseSum_filter_pos durs sched u pairs hnn
  · intro sched hadm u
    have hsat := hadm _ hmem
    have hu : pulseSum durs (pairs.filter (fun td => decide (0 < td.2))) sched u
        ≤ cap := hsat u
    rw [← pulseSum_filter_pos durs sched u pairs hnn]
    exact hu

/-- C2 witness: the amended-free statement instantiated at `exA`,
resource 0. -/
theorem C2_witness :
    ∃ pairs cap,
      resourcePairs exA.NB_TASKS.toNat (DEMANDS exA.NB_RESOURCES exA.TASKS) 0
        = some pairs ∧
      pyGet exA.CAPACITIES ((0 : Nat) : Int) = some cap ∧
      CpoConstraint.cumulLe (pairs.filter (fun td => decide (0 < td.2))) cap
        ∈ exAM.constraints ∧
      (∀ (sched : Nat → Int) (u : Int),
        pulseSum exAM.durations (pairs.filter (fun td => decide (0 < td.2))) sched u
          = pulseSum exAM.durations pairs sched u) ∧
      (∀ sched : Nat → Int, admits exAM sched →
        ∀ u : Int, pulseSum exAM.durations pairs sched u ≤ cap) :=
  C2_cumulative_capacity exA exAM (by decide) 0 (by decide) (by decide)

/-- C5: the objective the model minimizes is the makespan expression
`max(end_of(t) for t in tasks)`, whose value on any schedule is the
maximum over all tasks of start plus duration: it bounds every task's end
time and is attained by some task. -/
theorem C5_objective_is_max_end (p : ParsedInstance) (m : CpoModel)
    (h : buildModel p = some m) (hn : 0 < m.nbTasks) :
    CpoConstraint.minimizeMax (List.range m.nbTasks) ∈ m.constraints ∧
    ∀ sched : Nat → Int,
      (∀ t, t < m.nbTasks →
        endTime m.durations sched t
          ≤ evalMaxEnd m.durations sched (List.range m.nbTasks)) ∧
      ∃ t, t < m.nbTasks ∧
        evalMaxEnd m.durations sched (List.range m.nbTasks)
          = endTime m.durations sched t := by
  obtain ⟨durs, precs, cums, hdurs, hprecs, hcums, rfl⟩ := buildModel_eq h
  refine ⟨?_, ?_⟩
  · refine List.mem_append_right _ ?_
    cases hOB : p.OPTIMAL_BOUND <;> simp [objTail]
  · intro sched
    exact evalMaxEnd_is_max durs sched p.NB_TASKS.toNat hn

/-- C5 witness: the statement instantiated at `exA`. -/
theorem C5_witness :
    CpoConstraint.minimizeMax (List.range exAM.nbTasks) ∈ exAM.constraints ∧
    ∀ sched : Nat → Int,
      (∀ t, t < exAM.nbTasks →
        endTime exAM.durations sched t
          ≤ evalMaxEnd exAM.durations sched (List.range exAM.nbTasks)) ∧
      ∃ t, t < exAM.nbTasks ∧
        evalMaxEnd exAM.durations sched (List.range exAM.nbTasks)
          = endTime exAM.durations sched t :=
  C5_objective_is_max_end exA exAM (by decide) (by decide)

/-- C8 counterexample: the cyclic instance file `cycZLines` (activity
1 → activity 2 → activity 1, both durations zero) is parsed and the model
is built without any error — there is no cycle check and no
`CyclicPrecedenceError` anywhere in the program — and the built model even
admits the schedule that starts both tasks at time 0. -/
theorem C8_counterexample :
    readInstance cycZLines = some cycZ ∧
    SUCCESSORS cycZ.NB_RESOURCES cycZ.TASKS = [[2], [1]] ∧
    buildModel cycZ = some cycZM ∧
    admits cycZM (fun _ => 0) := by
  refine ⟨by decide, by decide, by decide, ?_⟩
  intro c hc
  fin_cases hc <;> simp [satisfies, endTime, cycZM]

/-- C8 amended: the program performs no cycle detection: it builds the
model and calls solve on cyclic input too.  What is true instead is that
when the successor lists close a precedence cycle of strictly positive
total duration, the built model admits no schedule at all. -/
theorem C8_positive_cycle_infeasible (p : ParsedInstance) (m : CpoModel)
    (_hbuild : buildModel p = some m) (t : Nat) (l : List Nat)
    (hch : chainFrom m t l) (hlast : lastOf t l = t)
    (hpos : 0 < durAlong m.durations t l) (sched : Nat → Int) :
    ¬ admits m sched := by
  intro hadm
  have hle := chainFrom_le m sched hadm l t hch
  rw [hlast] at hle
  linarith

/-- C8 witness: the positive-duration cyclic instance `cycP` yields a
model that admits no schedule; instantiated at the all-zero schedule. -/
theorem C8_witness : ¬ admits cycPM (fun _ => 0) :=
  C8_positive_cycle_infeasible cycP cycPM (by decide) 0 [1, 0]
    ⟨by decide, by decide, trivial⟩ (by decide) (by decide) (fun _ => 0)

/-- C4: parsing takes the first two integers of line 1 as the task and
resource counts and the optional third as the known-optimal bound, the
integers of line 2 as the capacities, and from each task line position 0
as the duration, positions 1 through NB_RESOURCES as the demand vector
and positions NB_RESOURCES+2 onward as the successor list. -/
theorem C4_instance_format (fileLines : List (List Int)) (p : ParsedInstance)
    (h : readInstance fileLines = some p) (a b : Int) (rest : List Int)
    (hfl : lineAt fileLines 0 = a :: b :: rest) (hb : 0 ≤ b) :
    p.NB_TASKS = a ∧ p.NB_RESOURCES = b ∧ p.OPTIMAL_BOUND = rest.head? ∧
    p.CAPACITIES = lineAt fileLines 1 ∧
    ∀ t, t < a.toNat →
      p.TASKS.get? t = some (lineAt fileLines (2 + t)) ∧
      (∀ durs, DURATIONS p.TASKS = some durs →
        durs.get? t = (lineAt fileLines (2 + t)).head?) ∧
      (DEMANDS p.NB_RESOURCES p.TASKS).get? t
        = some (((lineAt fileLines (2 + t)).drop 1).take b.toNat) ∧
      (SUCCESSORS p.NB_RESOURCES p.TASKS).get? t
        = some ((lineAt fileLines (2 + t)).drop (b.toNat + 2)) := by
  have h0 : pyGet (lineAt fileLines 0) 0 = some a := by
    rw [hfl]
    rfl
  have h1 : pyGet (lineAt fileLines 0) 1 = some b := by
    rw [hfl]
    rfl
  have h2 : (if 2 < (lineAt fileLines 0).length
      then pyGet (lineAt fileLines 0) 2 else none) = rest.head? := by
    rw [hfl]
    cases rest with
    | nil => rfl
    | cons c rest' =>
        rw [if_pos (by simp [List.length_cons])]
        rfl
  simp only [readInstance, Option.bind_eq_bind', Option.bind_eq_some,
    Option.pure_def, Option.some.injEq] at h
  obtain ⟨nbT, hnbT, nbR, hnbR, rfl⟩ := h
  rw [h0, Option.some.injEq] at hnbT
  rw [h1, Option.some.injEq] at hnbR
  subst hnbT
  subst hnbR
  refine ⟨rfl, rfl, h2, rfl, ?_⟩
  intro t ht
  have hTt : ((List.range a.toNat).map (fun i => lineAt fileLines (2 + i)))[t]?
      = some (lineAt fileLines (2 + t)) := by
    rw [List.getElem?_map, List.getElem?_range ht]
    rfl
  refine ⟨by rw [List.get?_eq_getElem?, hTt], ?_, ?_, ?_⟩
  · intro durs hdurs
    rw [DURATIONS] at hdurs
    dsimp only at hdurs
    have hg := mapO_get? _ hdurs t
    simp only [List.get?_eq_getElem?] at hg ⊢
    rw [hTt] at hg
    rw [hg, Option.some_bind, pyGet_of_nonneg _ le_rfl]
    simp only [List.get?_eq_getElem?]
    have hz : (0 : Int).toNat = 0 := rfl
    rw [hz, ← List.head?_eq_getElem?]
  · simp only [DEMANDS]
    rw [List.get?_eq_getElem?, List.getElem?_map, hTt, Option.map_some',
      Option.some.injEq, pySlice_eq _ (by omega) (by omega)]
    have harith : ((b : Int) + 1).toNat - (1 : Int).toNat = b.toNat := by omega
    rw [harith]
    congr 1
  · simp only [SUCCESSORS]
    rw [List.get?_eq_getElem?, List.getElem?_map, hTt, Option.map_some',
      Option.some.injEq, pyDrop_eq _ (by omega)]
    have harith : ((b : Int) + 2).toNat = b.toNat + 2 := by omega
    rw [harith]

/-- C4 witness: the instance file `exBLines` instantiates the format
theorem with task count 1, resource count 0 and bound 7. -/
theorem C4_witness :
    exB.NB_TASKS = 1 ∧ exB.NB_RESOURCES = 0 ∧
    exB.OPTIMAL_BOUND = ([7] : List Int).head? ∧
    exB.CAPACITIES = lineAt exBLines 1 ∧
    ∀ t, t < (1 : Int).toNat →
      exB.TASKS.get? t = some (lineAt exBLines (2 + t)) ∧
      (∀ durs, DURATIONS exB.TASKS = some durs →
        durs.get? t = (lineAt exBLines (2 + t)).head?) ∧
      (DEMANDS exB.NB_RESOURCES exB.TASKS).get? t
        = some (((lineAt exBLines (2 + t)).drop 1).take (0 : Int).toNat) ∧
      (SUCCESSORS exB.NB_RESOURCES exB.TASKS).get? t
        = some ((lineAt exBLines (2 + t)).drop ((0 : Int).toNat + 2)) :=
  C4_instance_format exBLines exB (by decide) 1 0 [7] (by decide) (by decide)

theorem map_congr_get? {α β : Type} (f g : α → β) (l₁ l₂ : List α)
    (hlen : l₁.length = l₂.length)
    (hag : ∀ i x₁ x₂, l₁.get? i = some x₁ → l₂.get? i = some x₂ →
      f x₁ = g x₂) :
    l₁.map f = l₂.map g := by
  apply List.ext_getElem?
  intro i
  rw [List.getElem?_map, List.getElem?_map]
  cases h₁ : l₁[i]? with
  | none =>
      have hge : l₂.length ≤ i := by
        rw [← hlen]
        exact List.getElem?_eq_none_iff.mp h₁
      rw [List.getElem?_eq_none hge]
      rfl
  | some x₁ =>
      have hi : i < l₂.length := by
        rcases lt_or_le i l₂.length with h | h
        · exact h
        · rw [List.getElem?_eq_none (hlen ▸ h)] at h₁
          cases h₁
      obtain ⟨x₂, h₂⟩ : ∃ x₂, l₂[i]? = some x₂ :=
        ⟨l₂[i], List.getElem?_eq_some.mpr ⟨hi, rfl⟩⟩
      rw [h₂, Option.map_some', Option.map_some',
        hag i x₁ x₂ (by rw [List.get?_eq_getElem?, h₁])
          (by rw [List.get?_eq_getElem?, h₂])]

/-- Two lists of the same length that agree everywhere except at index
`k` have the same suffix from any position past `k`. -/
theorem drop_M_agree (k M : Nat) (l₁ l₂ : List Int)
    (hag : ∀ j, j ≠ k → l₁.get? j = l₂.get? j) (hM : k < M) :
    l₁.drop M = l₂.drop M := by
  apply List.ext_getElem?
  intro i
  rw [List.getElem?_drop, List.getElem?_drop]
  have := hag (M + i) (by omega)
  simpa [List.get?_eq_getElem?] using this

/-- Two lists of the same length that agree everywhere except at index
`k` agree on the window of `K` elements starting at position 1, as long
as the window stays strictly below `k`. -/
theorem take_drop_agree (k K : Nat) (l₁ l₂ : List Int)
    (hag : ∀ j, j ≠ k → l₁.get? j = l₂.get? j) (hK : K < k) :
    (l₁.drop 1).take K = (l₂.drop 1).take K := by
  apply List.ext_getElem?
  intro i
  rcases lt_or_le i K with hi | hi
  · rw [List.getElem?_take_of_lt hi, List.getElem?_take_of_lt hi,
      List.getElem?_drop, List.getElem?_drop]
    have := hag (1 + i) (by omega)
    simpa [List.get?_eq_getElem?] using this
  · rw [List.getElem?_eq_none (by rw [List.length_take, List.length_drop]; omega),
      List.getElem?_eq_none (by rw [List.length_take, List.length_drop]; omega)]

/-- C9: the declared successor count (position NB_RESOURCES+1 of a task
line) is never read: two task tables of equal shape that agree everywhere
except possibly at that position yield identical DURATIONS, DEMANDS and
SUCCESSORS, hence an identical model. -/
theorem C9_declared_count_ignored (nbRes : Int) (hb : 0 ≤ nbRes)
    (tasks₁ tasks₂ : List (List Int))
    (hlen : tasks₁.length = tasks₂.length)
    (hag : ∀ t, t < tasks₁.length →
      (lineAt tasks₁ t).length = (lineAt tasks₂ t).length ∧
      ∀ i, i < (lineAt tasks₁ t).length → i ≠ (nbRes + 1).toNat →
        (lineAt tasks₁ t).get? i = (lineAt tasks₂ t).get? i) :
    DURATIONS tasks₁ = DURATIONS tasks₂ ∧
    DEMANDS nbRes tasks₁ = DEMANDS nbRes tasks₂ ∧
    SUCCESSORS nbRes tasks₁ = SUCCESSORS nbRes tasks₂ := by
  have hag' : ∀ t, t < tasks₁.length → ∀ j, j ≠ (nbRes + 1).toNat →
      (lineAt tasks₁ t).get? j = (lineAt tasks₂ t).get? j := by
    intro t ht j hj
    obtain ⟨hlen', hi⟩ := hag t ht
    rcases lt_or_le j (lineAt tasks₁ t).length with hlt | hge
    · exact hi j hlt hj
    · rw [List.get?_eq_getElem?, List.get?_eq_getElem?,
        List.getElem?_eq_none hge, List.getElem?_eq_none (by omega)]
  have hline : ∀ i x₁ x₂, tasks₁.get? i = some x₁ → tasks₂.get? i = some x₂ →
      x₁ = lineAt tasks₁ i ∧ x₂ = lineAt tasks₂ i ∧ i < tasks₁.length := by
    intro i x₁ x₂ h₁ h₂
    have h₁' := h₁
    have h₂' := h₂
    rw [List.get?_eq_getElem?] at h₁' h₂'
    refine ⟨by simp [lineAt, h₁'], by simp [lineAt, h₂'], ?_⟩
    rcases lt_or_le i tasks₁.length with h | h
    · exact h
    · rw [List.get?_eq_getElem?, List.getElem?_eq_none h] at h₁
      cases h₁
  refine ⟨?_, ?_, ?_⟩
  · rw [DURATIONS, DURATIONS]
    apply mapO_congr _ _ _ _ hlen
    intro i x₁ x₂ h₁ h₂
    obtain ⟨rfl, rfl, hi⟩ := hline i x₁ x₂ h₁ h₂
    rw [pyGet_of_nonneg _ le_rfl, pyGet_of_nonneg _ le_rfl]
    have h0 : (0 : Int).toNat = 0 := rfl
    rw [h0]
    exact hag' i hi 0 (by omega)
  · rw [DEMANDS, DEMANDS]
    apply map_congr_get? _ _ _ _ hlen
    intro i x₁ x₂ h₁ h₂
    obtain ⟨rfl, rfl, hi⟩ := hline i x₁ x₂ h₁ h₂
    rw [pySlice_eq _ (by omega) (by omega), pySlice_eq _ (by omega) (by omega)]
    have h1 : (1 : Int).toNat = 1 := rfl
    rw [h1]
    exact take_drop_agree (nbRes + 1).toNat _ _ _
      (fun j hj => hag' i hi j hj) (by omega)
  · rw [SUCCESSORS, SUCCESSORS]
    apply map_congr_get? _ _ _ _ hlen
    intro i x₁ x₂ h₁ h₂
    obtain ⟨rfl, rfl, hi⟩ := hline i x₁ x₂ h₁ h₂
    rw [pyDrop_eq _ (by omega), pyDrop_eq _ (by omega)]
    exact drop_M_agree (nbRes + 1).toNat _ _ _
      (fun j hj => hag' i hi j hj) (by omega)

/-- C9 witness: one resource; the two task lines differ only in the
declared successor count (position 2), values 3 versus 99, and all three
extracted tables coincide. -/
theorem C9_witness :
    DURATIONS [[5, 2, 3, 2]] = DURATIONS [[5, 2, 99, 2]] ∧
    DEMANDS 1 [[5, 2, 3, 2]] = DEMANDS 1 [[5, 2, 99, 2]] ∧
    SUCCESSORS 1 [[5, 2, 3, 2]] = SUCCESSORS 1 [[5, 2, 99, 2]] :=
  C9_declared_count_ignored 1 (by decide) [[5, 2, 3, 2]] [[5, 2, 99, 2]]
    (by decide) (by decide)

/-- C10 counterexample: the instance file `shortLines` has an empty task
line (fewer than NB_RESOURCES+2 = 4 values); reading succeeds but the
duration extraction `TASKS[t][0]` raises, so the parsing pipeline does
raise an error on such a line, contrary to the claim. -/
theorem C10_counterexample :
    readInstance shortLines = some ⟨1, 2, none, [3, 3], [[]]⟩ ∧
    (([] : List Int)).length < ((2 : Int) + 2).toNat ∧
    prepareData shortLines = none := by
  decide

/-- C10 amended: on task lines with at least one value the pipeline
raises no error, and on a line with fewer than NB_RESOURCES+2 values the
successor list is empty and the demand vector is truncated to the
available values (length `min NB_RESOURCES (len-1)`, strictly shorter
than NB_RESOURCES whenever the line has at most NB_RESOURCES values); a
task line with no values at all, however, makes the duration extraction
raise. -/
theorem C10_truncation (nbRes : Int) (hb : 0 ≤ nbRes)
    (tasks : List (List Int)) (hne : ∀ l ∈ tasks, l ≠ []) :
    (DURATIONS tasks).isSome ∧
    ∀ t l, tasks.get? t = some l → l.length < (nbRes + 2).toNat →
      lineAt (SUCCESSORS nbRes tasks) t = [] ∧
      (lineAt (DEMANDS nbRes tasks) t).length
        = min nbRes.toNat (l.length - 1) := by
  constructor
  · rw [DURATIONS]
    apply mapO_isSome
    intro l hl
    have hnl := hne l hl
    rw [pyGet_of_nonneg _ le_rfl]
    cases l with
    | nil => exact absurd rfl hnl
    | cons x xs => rfl
  · intro t l htl hlt
    have ht : t < tasks.length := by
      rcases lt_or_le t tasks.length with h | h
      · exact h
      · rw [List.get?_eq_getElem?, List.getElem?_eq_none h] at htl
        cases htl
    rw [List.get?_eq_getElem?] at htl
    constructor
    · have hmap : (SUCCESSORS nbRes tasks).get? t
          = some (pyDrop l (nbRes + 2)) := by
        rw [SUCCESSORS, List.get?_eq_getElem?, List.getElem?_map, htl,
          Option.map_some']
      rw [lineAt, hmap, Option.getD_some, pyDrop_eq _ (by omega)]
      exact List.drop_eq_nil_of_le (by omega)
    · have hmap : (DEMANDS nbRes tasks).get? t
          = some (pySlice l 1 (nbRes + 1)) := by
        rw [DEMANDS, List.get?_eq_getElem?, List.getElem?_map, htl,
          Option.map_some']
      rw [lineAt, hmap, Option.getD_some,
        pySlice_eq _ (by omega) (by omega), List.length_take,
        List.length_drop]
      omega

/-- C10 witness: a single task line `[4, 1]` with two resources: the
duration parses, the demand vector is truncated to length 1 < 2 and the
successor list is empty. -/
theorem C10_witness :
    (DURATIONS [[4, 1]]).isSome ∧
    ∀ t l, ([[4, 1]] : List (List Int)).get? t = some l →
      l.length < ((2 : Int) + 2).toNat →
      lineAt (SUCCESSORS 2 [[4, 1]]) t = [] ∧
      (lineAt (DEMANDS 2 [[4, 1]]) t).length
        = min (2 : Int).toNat (l.length - 1) :=
  C10_truncation 2 (by decide) [[4, 1]] (by decide)

end RCPSP
